import Mathlib

/-!
Shallow embedding of the math-answer grading core of this repository:
`src/domains/math_reasoning/response_normalization.py` (the "mathd"-style
syntactic normalizer) and `src/domains/math_reasoning/evaluation.py`
(extended normalizer, tuple splitter, symbolic-equality guard and the
`grade_answer` orchestrator).

Modelling conventions:
- Python strings are Lean `String`s (`List Char` underneath); character
  classes such as `\d`, `isalpha`, `lower()` are modelled over ASCII, the
  range exercised by the grader.
- A Python function that can raise an uncaught exception is embedded with
  an `Option` result, `none` standing for the raised exception; exceptions
  the source catches locally are resolved inside the definition.
- Scanning rewrites (Python `re.sub`, `str.replace`, `str.split`) consume at
  least one character per step, so they are written with a fuel argument of
  `length + 1`, which can never run out; this keeps every definition
  computable by kernel reduction.
- `float(...)` is modelled as exact decimal parsing into a mantissa-and-scale
  integer pair (sign, digits, optional fraction part, optional exponent),
  representing the exact rational value of the literal.  Python additionally
  accepts surrounding whitespace (immaterial here: every call site strips or
  never produces it or fails a later canonicality check), underscore
  separators, and `inf`/`nan` (which fail the integer-closeness guards at
  every call site), and rounds to binary floating point (which differs from
  exact rationals only on inputs beyond double precision).
- The two external capabilities, `pylatexenc`'s LaTeX-to-text conversion and
  sympy's parse/simplify, are abstracted as oracle parameters `lo` and `so`;
  `none` models the library call raising.
-/

/-- Python-style whitespace test used by `str.strip` (ASCII subset). -/
def pyWs (c : Char) : Bool :=
  c == ' ' || c == '\t' || c == '\n' || c == '\r' || c == '\x0b' || c == '\x0c'

/-- Python `str.strip()` on the underlying character list. -/
def pyStripL (l : List Char) : List Char :=
  ((l.dropWhile pyWs).reverse.dropWhile pyWs).reverse

/-- Python `str.strip()`. -/
def pyStrip (s : String) : String := String.mk (pyStripL s.data)

/-- Decimal value of a digit list. -/
def natVal (l : List Char) : Nat := l.foldl (fun a c => 10 * a + (c.toNat - 48)) 0

/-- One fuelled pass of Python `str.replace`: replace every non-overlapping
occurrence of `pat`, scanning left to right.  Each step consumes at least one
character when `pat` is nonempty, so fuel `length + 1` never runs out. -/
def replaceAllGo (pat rep : List Char) : Nat → List Char → List Char
  | _, [] => []
  | 0, l => l
  | n + 1, x :: xs =>
    if pat.isPrefixOf (x :: xs) then rep ++ replaceAllGo pat rep n ((x :: xs).drop pat.length)
    else x :: replaceAllGo pat rep n xs

/-- Python `str.replace` on lists (no call site uses an empty pattern). -/
def replaceAllL (pat rep l : List Char) : List Char :=
  if pat.isEmpty then l else replaceAllGo pat rep (l.length + 1) l

/-- Python `s.replace(pat, rep)`. -/
def pyReplace (s pat rep : String) : String := String.mk (replaceAllL pat.data rep.data s.data)

/-- Python `pat in s` substring containment. -/
def containsSubL (pat : List Char) : List Char → Bool
  | [] => pat.isPrefixOf []
  | x :: xs => pat.isPrefixOf (x :: xs) || containsSubL pat xs

/-- Python `pat in s`. -/
def pyContains (s pat : String) : Bool := containsSubL pat.data s.data

/-- Number of non-overlapping occurrences of `pat`, scanning left to right
(`str.split` on `pat` yields this count plus one pieces). -/
def occCountGo (pat : List Char) : Nat → List Char → Nat
  | _, [] => 0
  | 0, _ => 0
  | n + 1, x :: xs =>
    if pat.isPrefixOf (x :: xs) then 1 + occCountGo pat n ((x :: xs).drop pat.length)
    else occCountGo pat n xs

/-- Occurrence count of a nonempty pattern. -/
def occCountL (pat l : List Char) : Nat :=
  if pat.isEmpty then 0 else occCountGo pat (l.length + 1) l

/-- The prefix of `l` before the first occurrence of `pat` (`str.split`'s first piece). -/
def beforeFirstL (pat : List Char) : List Char → List Char
  | [] => []
  | x :: xs => if pat.isPrefixOf (x :: xs) then [] else x :: beforeFirstL pat xs

/-- Fuelled Python `str.split(sep)` with nonempty separator. -/
def splitOnSubGo (pat : List Char) : Nat → List Char → List (List Char)
  | _, [] => [[]]
  | 0, l => [l]
  | n + 1, x :: xs =>
    if pat.isPrefixOf (x :: xs) then [] :: splitOnSubGo pat n ((x :: xs).drop pat.length)
    else
      match splitOnSubGo pat n xs with
      | [] => [[x]]
      | p :: ps => (x :: p) :: ps

/-- Python `str.split(sep)` (no call site uses an empty separator). -/
def splitOnSubL (pat l : List Char) : List (List Char) :=
  if pat.isEmpty then [l] else splitOnSubGo pat (l.length + 1) l

/-- Regex `^\\text\{(?P<text>.+?)\}$` of the source, reading off the body when the
whole string is a `\text{...}` wrapper.  `.` does not match a newline, the body
must be nonempty, and `$` also matches just before a single trailing newline;
the two possible positions of the closing brace are mutually exclusive, so the
lazy quantifier resolves to this unique decomposition. -/
def textUnwrapCore (s : String) : Option String :=
  let l := s.data
  if ("\\text\x7b".data).isPrefixOf l then
    let rest := l.drop 6
    let body? : Option (List Char) :=
      if rest.getLast? = some '\x7d' then some rest.dropLast
      else if rest.reverse.take 2 = ['\n', '\x7d'] then some rest.dropLast.dropLast
      else none
    match body? with
    | some body => if body ≠ [] ∧ ¬ body.contains '\n' then some (String.mk body) else none
    | none => none
  else none

/-- The ordered multi-character replacements of `_strip_string`.  The Python dict
literal writes both `'\\%'` and `'\%'`, which denote the same two-character
string, so the dict holds a single entry for it. -/
def multiCharReplacements : List (String × String) :=
  [("\n", ""), ("\\\\", "\\"), ("tfrac", "frac"), ("dfrac", "frac"),
   ("\\left", ""), ("\\right", ""), ("^\x7b\\circ\x7d", ""), ("^\\circ", ""),
   ("\\$", ""), ("\\%", ""), (" .", " 0."), ("\x7b.", "\x7b0."), ("\\!", "")]

/-- Apply the multi-character replacements in dict order. -/
def applyReplacements (s : String) : String :=
  multiCharReplacements.foldl (fun acc p => pyReplace acc p.1 p.2) s

/-- Prepend `0` when the string starts with `.`. -/
def leadingDotFix (s : String) : String :=
  match s.data with
  | '.' :: _ => String.mk ('0' :: s.data)
  | _ => s

/-- `_remove_right_units`: keep the part before a single `\text{ ` marker; `none`
models the uncaught `AssertionError` when the marker occurs more than once
(`string.split` then yields more than two parts). -/
def _remove_right_units (s : String) : Option String :=
  let occ := occCountL "\\text\x7b ".data s.data
  if occ = 0 then some s
  else if occ = 1 then some (String.mk (beforeFirstL "\\text\x7b ".data s.data))
  else none

/-- Drop a `k = `-style assignment prefix: exactly one `=` and at most two
characters before it. -/
def eqPrefixDrop (s : String) : String :=
  match splitOnSubL ['='] s.data with
  | [a, b] => if a.length ≤ 2 then String.mk b else s
  | _ => s

/-- Per-piece loop of `_fix_sqrt` over the pieces after each `\sqrt`; `none`
models the uncaught `IndexError` on an empty piece (a `\sqrt` followed by
nothing, e.g. trailing `\sqrt` or `\sqrt\sqrt`). -/
def fixSqrtPieces : List (List Char) → Option (List Char)
  | [] => some []
  | p :: ps =>
    match fixSqrtPieces ps with
    | none => none
    | some restOut =>
      match p with
      | [] => none
      | '\x7b' :: _ => some ("\\sqrt".data ++ p ++ restOut)
      | a :: as => some ("\\sqrt\x7b".data ++ [a] ++ ['\x7d'] ++ as ++ restOut)

/-- `_fix_sqrt`: wrap a braceless character after `\sqrt` in braces. -/
def _fix_sqrt (s : String) : Option String :=
  if ¬ pyContains s "\\sqrt" then some s
  else
    match splitOnSubL "\\sqrt".data s.data with
    | [] => some s
    | first :: rest =>
      match fixSqrtPieces rest with
      | none => none
      | some out => some (String.mk (first ++ out))

/-- Outcome of the `_fix_fracs` piece loop: a rewritten tail, an uncaught
`IndexError` (`exn`, empty piece), or the guarded assert for a length-one piece
that makes the whole function return its original input (`orig`). -/
inductive FracsOut
  | ok : List Char → FracsOut
  | exn : FracsOut
  | orig : FracsOut

/-- Per-piece loop of `_fix_fracs` over the pieces after each `\frac`.  The
piece's own failure is decided before the rest of the loop runs, matching the
left-to-right Python iteration. -/
def fixFracsPieces : List (List Char) → FracsOut
  | [] => .ok []
  | p :: ps =>
    match p with
    | [] => .exn
    | '\x7b' :: _ =>
      match fixFracsPieces ps with
      | .ok r => .ok ("\\frac".data ++ p ++ r)
      | e => e
    | [_] => .orig
    | a :: b :: post =>
      match fixFracsPieces ps with
      | .ok r =>
        if b ≠ '\x7b' then
          .ok ("\\frac\x7b".data ++ [a] ++ "\x7d\x7b".data ++ [b] ++ ['\x7d'] ++ post ++ r)
        else
          .ok ("\\frac\x7b".data ++ [a] ++ ['\x7d'] ++ [b] ++ post ++ r)
      | e => e

/-- `_fix_fracs`: brace single-character numerators and denominators after `\frac`. -/
def _fix_fracs (s : String) : Option String :=
  match splitOnSubL "\\frac".data s.data with
  | [] => some s
  | first :: rest =>
    if rest.isEmpty then some (String.mk first)
    else
      match fixFracsPieces rest with
      | .ok out => some (String.mk (first ++ out))
      | .exn => none
      | .orig => some s

/-- Model of Python `int(str)` restricted to an optional sign followed by digits.
Python also strips whitespace and accepts underscore separators, but any such
input (like any non-canonical form accepted here: leading zeros, `+`, `-0`)
necessarily fails the canonical-form assertion in `_fix_a_slash_b`, so the net
behaviour of the one consumer is unchanged by the restriction. -/
def pyIntParse (l : List Char) : Option Int :=
  match l with
  | '-' :: ds => if ds ≠ [] ∧ ds.all Char.isDigit then some (-(natVal ds : Int)) else none
  | '+' :: ds => if ds ≠ [] ∧ ds.all Char.isDigit then some ((natVal ds : Int)) else none
  | ds => if ds ≠ [] ∧ ds.all Char.isDigit then some ((natVal ds : Int)) else none

/-- `_fix_a_slash_b`: rewrite a canonical `a/b` with integer sides into
`\frac{a}{b}`; every failure of the guarded `int` conversions or of the
canonical-form assert returns the input unchanged. -/
def _fix_a_slash_b (s : String) : String :=
  match splitOnSubL ['/'] s.data with
  | [a, b] =>
    match pyIntParse a, pyIntParse b with
    | some ia, some ib =>
      if s.data = (toString ia).data ++ ['/'] ++ (toString ib).data then
        String.mk ("\\frac\x7b".data ++ (toString ia).data ++ "\x7d\x7b".data
          ++ (toString ib).data ++ ['\x7d'])
      else s
    | _, _ => s
  | _ => s

/-- `_strip_string`: the ordered syntactic rewrite pipeline; `none` models an
uncaught exception escaping from one of the inner rewrites. -/
def _strip_string (s : String) : Option String :=
  if s = "" then some s
  else
    let s2 := leadingDotFix (applyReplacements s)
    match _remove_right_units s2 with
    | none => none
    | some s3 =>
      let s4 := eqPrefixDrop s3
      match _fix_sqrt s4 with
      | none => none
      | some s5 =>
        match _fix_fracs (pyReplace s5 " " "") with
        | none => none
        | some s7 =>
          let s8 := if s7 = "0.5" then "\\frac\x7b1\x7d\x7b2\x7d" else s7
          some (_fix_a_slash_b s8)

/-- The part of `normalize_answer` before `_strip_string`: strip surrounding
whitespace, then replace a whole-string `\text{...}` wrapper with its stripped
body. -/
def na_pre (s : String) : String :=
  let a := pyStrip s
  match textUnwrapCore a with
  | some b => pyStrip b
  | none => a

/-- `normalize_answer`: the bare `except` returns the stripped, unwrapped string
whenever `_strip_string` raises. -/
def normalize_answer (answer : Option String) : Option String :=
  match answer with
  | none => none
  | some s =>
    let a := na_pre s
    match _strip_string a with
    | some r => some r
    | none => some a

/-- Modelled from the spec, for claim C2's reading of §4.1 step 5: the
`_strip_string` pipeline with only the trailing-units-removal step skipped and
every remaining step still applied. -/
def strip_string_spec_skip_units (s : String) : Option String :=
  if s = "" then some s
  else
    let s4 := eqPrefixDrop (leadingDotFix (applyReplacements s))
    match _fix_sqrt s4 with
    | none => none
    | some s5 =>
      match _fix_fracs (pyReplace s5 " " "") with
      | none => none
      | some s7 =>
        let s8 := if s7 = "0.5" then "\\frac\x7b1\x7d\x7b2\x7d" else s7
        some (_fix_a_slash_b s8)

/-- Exact value of a parsed decimal float: the rational `m / 10 ^ k`.  Using a
mantissa-and-scale pair of machine-free integers keeps every arithmetic step
kernel-computable while representing the same exact rational as the decimal
literal. -/
structure DecVal where
  m : Int
  k : Nat

/-- `10 ^ k`, the denominator of a `DecVal`. -/
def decScale (v : DecVal) : Int := (10 : Int) ^ v.k

/-- Multiply a parsed mantissa by `10 ^ ex` (the exponent clause). -/
def decApplyExp (v : DecVal) (ex : Int) : DecVal :=
  if 0 ≤ ex then ⟨v.m * 10 ^ ex.toNat, v.k⟩ else ⟨v.m, v.k + (-ex).toNat⟩

/-- Round to the nearest integer, halves up: `⌊v + 1/2⌋ = ⌊(2m + d) / 2d⌋`.
Python's one-argument `round` rounds halves to even, but everywhere the grader
uses it the value is within `1e-7` of an integer — no ties — so half-up is an
equivalent model. -/
def decRound (v : DecVal) : Int := Int.fdiv (2 * v.m + decScale v) (2 * decScale v)

/-- Python `int(float)`: truncation toward zero. -/
def decTrunc (v : DecVal) : Int := Int.tdiv v.m (decScale v)

/-- `abs(x - int(round(x))) <= 1e-7` in exact integer arithmetic:
`|m - r·d| · 10^7 ≤ d`. -/
def decIsInt (v : DecVal) : Bool :=
  (v.m - decRound v * decScale v).natAbs * 10 ^ 7 ≤ (decScale v).natAbs

/-- The exponent clause of the float grammar: optional sign, then one or more
digits consuming the whole remainder. -/
def parseExp (r : List Char) : Option Int :=
  let r1 := if r.head? = some '-' ∨ r.head? = some '+' then r.tail else r
  let ds := r1.takeWhile Char.isDigit
  if ds = [] ∨ r1.dropWhile Char.isDigit ≠ [] then none
  else some ((if r.head? = some '-' then (-1 : Int) else 1) * (natVal ds : Int))

/-- The float grammar after the optional leading sign: digits with optional
fraction part, then an optional exponent clause consuming the remainder. -/
def floatBody (sg : Int) (l1 : List Char) : Option DecVal :=
  let ip := l1.takeWhile Char.isDigit
  let l2 := l1.dropWhile Char.isDigit
  let hasDot := l2.head? = some '.'
  let l2t := if hasDot then l2.tail else l2
  let fp := if hasDot then l2t.takeWhile Char.isDigit else []
  let l3 := if hasDot then l2t.dropWhile Char.isDigit else l2
  if ip = [] ∧ fp = [] then none
  else
    let base : DecVal := ⟨sg * ((natVal ip : Int) * 10 ^ fp.length + (natVal fp : Int)), fp.length⟩
    match l3 with
    | [] => some base
    | e :: r =>
      if e = 'e' ∨ e = 'E' then
        match parseExp r with
        | some ex => some (decApplyExp base ex)
        | none => none
      else none

/-- Model of Python `float(str)`: optional sign, digits with optional fraction
part, optional exponent, parsed exactly (see the file header for the deliberate
deviations: whitespace, underscores, `inf`/`nan`, binary rounding). -/
def pyFloatParse (s : String) : Option DecVal :=
  let l := s.data
  let sg : Int := if l.head? = some '-' then -1 else 1
  let l1 := if l.head? = some '-' ∨ l.head? = some '+' then l.tail else l
  floatBody sg l1

/-- `_is_float`: Python `float(num)` succeeds. -/
def _is_float (s : String) : Bool := (pyFloatParse s).isSome

/-- One `p1.sub` pass of `_strip_properly_formatted_commas`: regex
`(\d)(,)(\d\d\d)($|\D)` with replacement `\1\3\4`, scanning left to right,
resuming after each match.  The `$`-before-a-trailing-newline alternative of
Python's `$` yields the same output as consuming the newline via `\D`, since no
further match can start at a final newline. -/
def commaPassGo : Nat → List Char → List Char
  | _, [] => []
  | 0, l => l
  | n + 1, x :: xs =>
    match xs with
    | c1 :: a :: b :: c :: rest =>
      if c1 == ',' && x.isDigit && a.isDigit && b.isDigit && c.isDigit then
        match rest with
        | [] => [x, a, b, c]
        | e :: restTl =>
          if e.isDigit then x :: commaPassGo n xs
          else x :: a :: b :: c :: e :: commaPassGo n restTl
      else x :: commaPassGo n xs
    | _ => x :: commaPassGo n xs

/-- One full substitution pass, on strings. -/
def commaPassS (s : String) : String := String.mk (commaPassGo (s.data.length + 1) s.data)

/-- The `while True` fixpoint loop of `_strip_properly_formatted_commas`,
fuelled by `length + 1`: each productive pass strictly shortens the string
(proved below for claim C10), so the fuel can never run out. -/
def stripCommasLoop : Nat → String → String
  | 0, e => e
  | n + 1, e =>
    let e' := commaPassS e
    if e' = e then e else stripCommasLoop n e'

/-- `_strip_properly_formatted_commas`. -/
def _strip_properly_formatted_commas (e : String) : String :=
  stripCommasLoop (e.length + 1) e

/-- `_str_is_int`: strip well-formed commas, parse as float, check integer
closeness; every failure inside the `try` resolves to `False`. -/
def _str_is_int (s : String) : Bool :=
  match pyFloatParse (_strip_properly_formatted_commas s) with
  | none => false
  | some q => decIsInt q

/-- `_str_to_int`: remove every comma, parse as float, truncate; `none` models
the uncaught exception when the parse fails (shown unreachable from its one
guarded call site, see claim C8). -/
def _str_to_int (s : String) : Option Int :=
  (pyFloatParse (pyReplace s "," "")).map decTrunc

/-- `_inject_implicit_mixed_number`: regex `([0-9]) +([0-9])` → `\1+\2`, one
left-to-right non-overlapping pass (not iterated to fixpoint). -/
def injectGo : Nat → List Char → List Char
  | _, [] => []
  | 0, l => l
  | n + 1, x :: xs =>
    if x.isDigit then
      match xs.takeWhile (fun c => c == ' '), xs.dropWhile (fun c => c == ' ') with
      | _ :: _, d :: rest =>
        if d.isDigit then x :: '+' :: d :: injectGo n rest
        else x :: injectGo n xs
      | _, _ => x :: injectGo n xs
    else x :: injectGo n xs

/-- `_inject_implicit_mixed_number` on strings. -/
def _inject_implicit_mixed_number (s : String) : String :=
  String.mk (injectGo (s.data.length + 1) s.data)

/-- One global pass of `re.sub(f'{unit}(es)?(s)? *(\^[0-9]+)?', '', expr)`:
at each occurrence of the unit word, also consume an optional `es`, an optional
`s`, any spaces, and a caret exponent only when at least one digit follows the
caret (the greedy optional groups never backtrack since the rest of the
pattern is all-optional). -/
def unitSubGo (u : List Char) : Nat → List Char → List Char
  | _, [] => []
  | 0, l => l
  | n + 1, x :: xs =>
    if u.isPrefixOf (x :: xs) then
      let r1 := (x :: xs).drop u.length
      let r2 := if ['e', 's'].isPrefixOf r1 then r1.drop 2 else r1
      let r3 := if r2.head? = some 's' then r2.tail else r2
      let r4 := r3.dropWhile (fun c => c == ' ')
      let r5 :=
        match r4 with
        | '^' :: t => if (t.takeWhile Char.isDigit) ≠ [] then t.dropWhile Char.isDigit else r4
        | _ => r4
      unitSubGo u n r5
    else x :: unitSubGo u n xs

/-- Unit-word removal on strings. -/
def unitSub (u : String) (s : String) : String :=
  String.mk (unitSubGo u.data (s.data.length + 1) s.data)

/-- The unit vocabulary of `_normalize`, processed in source order. -/
def unitWords : List String :=
  ["degree", "cm", "centimeter", "meter", "mile", "second", "minute", "hour",
   "day", "week", "month", "year", "foot", "feet", "inch", "yard"]

/-- One global pass of `re.sub('\^ *\\\\circ', '', expr)`. -/
def circSubGo : Nat → List Char → List Char
  | _, [] => []
  | 0, l => l
  | n + 1, x :: xs =>
    if x == '^' then
      let r := xs.dropWhile (fun c => c == ' ')
      if ("\\circ".data).isPrefixOf r then circSubGo n (r.drop 5)
      else x :: circSubGo n xs
    else x :: circSubGo n xs

/-- One global pass of `re.sub(',\\\\! *', '', expr)`: comma, backslash, bang,
then any spaces. -/
def commaEmphGo : Nat → List Char → List Char
  | _, [] => []
  | 0, l => l
  | n + 1, x :: xs =>
    if x == ',' && ("\\!".data).isPrefixOf xs then
      commaEmphGo n ((xs.drop 2).dropWhile (fun c => c == ' '))
    else x :: commaEmphGo n xs

/-- One global pass of `re.sub('- *', '-', expr)`: spaces after a minus sign
are removed. -/
def minusSubGo : Nat → List Char → List Char
  | _, [] => []
  | 0, l => l
  | n + 1, x :: xs =>
    if x == '-' then '-' :: minusSubGo n (xs.dropWhile (fun c => c == ' '))
    else x :: minusSubGo n xs

/-- `_parse_latex`, with `pylatexenc`'s `latex_to_text` abstracted as the
oracle `lo` (`none` models the library call raising). -/
def _parse_latex (lo : String → Option String) (e : String) : Option String :=
  let p1 := pyReplace (pyReplace e "\\tfrac" "\\frac") "\\dfrac" "\\frac"
  let p2 := pyReplace p1 "\\frac" " \\frac"
  match lo p2 with
  | none => none
  | some t =>
    let t1 := pyReplace (pyReplace (pyReplace (pyReplace (pyReplace (pyReplace
      t "√" "sqrt") "π" "pi") "∞" "inf") "∪" "U") "·" "*") "×" "*"
    some (pyStrip t1)

/-- The final integer-coercion step of `_normalize`: its `Option` result models
the exception Python would not catch there (shown unreachable by the claim C8
theorem). -/
def normalizeFinal (x : String) : Option String :=
  if _str_is_int x then (_str_to_int x).map (fun n => toString n) else some x

/-- Lines 249-258 of `_normalize`: drop `%`/`$` markers, join `or`/`and`
alternatives into tuple form, expand the scale words. -/
def normSymbols (e : String) : String :=
  pyReplace (pyReplace (pyReplace (pyReplace (pyReplace (pyReplace (pyReplace (pyReplace
    (pyReplace e "\\%" "%") "\\$" "$") "$" "") "%" "") " or " " , ") " and " " , ")
    "million" "*10^6") "billion" "*10^9") "trillion" "*10^12"

/-- The unit-word stripping loop of `_normalize`. -/
def normUnits (e : String) : String := unitWords.foldl (fun acc u => unitSub u acc) e

/-- The degree-marker removal of `_normalize`. -/
def normCirc (e : String) : String := String.mk (circSubGo (e.data.length + 1) e.data)

/-- Strip one enclosing brace pair. -/
def normBraceStrip (e : String) : String :=
  if e.data.head? = some '\x7b' ∧ e.data.getLast? = some '\x7d' then
    String.mk e.data.tail.dropLast
  else e

/-- The thousands-emphasis comma removal of `_normalize`. -/
def normCommaEmph (e : String) : String :=
  String.mk (commaEmphGo (e.data.length + 1) e.data)

/-- The float-to-integer canonicalization step of `_normalize`. -/
def normFloatInt (e : String) : String :=
  match pyFloatParse e with
  | some q => if decIsInt q then toString (decRound q) else e
  | none => e

/-- The guarded LaTeX-to-text attempt of `_normalize` (failure keeps the
string unchanged). -/
def normLatex (lo : String → Option String) (e : String) : String :=
  if pyContains e "\\" then
    match _parse_latex lo e with
    | some r => r
    | none => e
  else e

/-- The minus-space collapsing of `_normalize`. -/
def normMinus (e : String) : String := String.mk (minusSubGo (e.data.length + 1) e.data)

/-- Remove remaining spaces and braces. -/
def normSpaceBrace (e : String) : String :=
  pyReplace (pyReplace (pyReplace e " " "") "\x7b" "") "\x7d" ""

/-- Case folding. -/
def normLower (e : String) : String := String.mk (e.data.map Char.toLower)

/-- `_normalize` of evaluation.py: the stages above composed in source order.
`lo` abstracts the LaTeX-to-text library. -/
def _normalize (lo : String → Option String) : Option String → Option String
  | none => none
  | some expr0 =>
    let e1 :=
      match textUnwrapCore expr0 with
      | some b => b
      | none => expr0
    normalizeFinal (normLower (normSpaceBrace (_inject_implicit_mixed_number (normMinus
      (normLatex lo (normFloatInt (normCommaEmph (normBraceStrip (normCirc
        (normUnits (normSymbols e1)))))))))))

/-- `count_unknown_letters_in_expr`: distinct alphabetic characters after
removing the substrings `sqrt` and `frac`. -/
def count_unknown_letters_in_expr (e : String) : Nat :=
  (((pyReplace (pyReplace e "sqrt" "") "frac" "").data.filter Char.isAlpha).dedup).length

/-- Search for the regex `\^[0-9]+\^`: some caret is followed by at least one
digit and then another caret (the digit run before the second caret is
necessarily maximal, so no further backtracking cases arise). -/
def hasPowTowerGo : List Char → Bool
  | [] => false
  | '^' :: rest =>
    (!(rest.takeWhile Char.isDigit).isEmpty
        && ((rest.dropWhile Char.isDigit).head? == some '^'))
      || hasPowTowerGo rest
  | _ :: rest => hasPowTowerGo rest

/-- Search for the regex `\^[0-9][0-9]+`: some caret is followed by at least
two digits. -/
def hasBigPowGo : List Char → Bool
  | [] => false
  | '^' :: rest => decide (2 ≤ (rest.takeWhile Char.isDigit).length) || hasBigPowGo rest
  | _ :: rest => hasBigPowGo rest

/-- `should_allow_eval`: the heuristic guard over `BAD_SUBSTRINGS` and
`BAD_REGEXES`. -/
def should_allow_eval (e : String) : Bool :=
  if 2 < count_unknown_letters_in_expr e then false
  else if pyContains e "^\x7b" then false
  else if pyContains e "^(" then false
  else if hasPowTowerGo e.data then false
  else if hasBigPowGo e.data then false
  else true

/-- The difference expression `f'({ground_truth_normalized})-({given_normalized})'`
built by `are_equal_under_sympy`. -/
def diff_expr (gt g : String) : String := "(" ++ gt ++ ")-(" ++ g ++ ")"

/-- `are_equal_under_sympy`, with `_sympy_parse` + `sympy.simplify` + the
comparison to zero abstracted as the oracle `so` on the difference expression
(`none` models a raised parse or simplification error; the `^`→`**` rewrite
lives inside the abstracted call).  The surrounding try/except resolves every
failure to `false`. -/
def are_equal_under_sympy (so : String → Option Bool) (gt g : String) : Bool :=
  let e := diff_expr gt g
  if should_allow_eval e then
    match so e with
    | some b => b
    | none => false
  else false

/-- Admissible prefix `-?[0-9]+.?` (sign already removed) before the chosen `/`
of the `_is_frac` regex: all digits, or digits followed by one non-newline
separator character. -/
def fracPrefixOK (p : List Char) : Bool :=
  !p.isEmpty &&
    (p.all Char.isDigit ||
      (!p.dropLast.isEmpty && p.dropLast.all Char.isDigit && p.getLast? != some '\n'))

/-- Admissible suffix `0*[1-9][0-9]*.?` after the chosen `/` of the `_is_frac`
regex. -/
def fracSuffixOK (q : List Char) : Bool :=
  match q.dropWhile (fun c => c == '0') with
  | [] => false
  | c :: r =>
    ('1' ≤ c && c ≤ '9') &&
      (r.all Char.isDigit || (r.dropLast.all Char.isDigit && r.getLast? != some '\n'))

/-- `_is_frac`: `re.search(r'^-?[0-9]+.?/0*[1-9][0-9]*.?$', expr)`.  The
anchored search with backtracking amounts to: after dropping one trailing
newline (which `$` may precede) and an optional leading `-`, some `/` splits
the string into an admissible prefix and suffix. -/
def _is_frac (s : String) : Bool :=
  let l0 := s.data
  let l1 := if l0.getLast? = some '\n' then l0.dropLast else l0
  let l2 := if l1.head? = some '-' then l1.tail else l1
  (List.range l2.length).any (fun i =>
    (l2.get? i == some '/') && fracPrefixOK (l2.take i) && fracSuffixOK (l2.drop (i + 1)))

/-- `TUPLE_CHARS`. -/
def TUPLE_CHARS : List Char := ['(', ')', '[', ']']

/-- The bracketed-group condition of `split_tuple`: longer than two characters,
bracket characters at both ends, no bracket character in the interior. -/
def tupleBracketed (l : List Char) : Bool :=
  decide (2 < l.length) &&
    (match l.head? with | some c => TUPLE_CHARS.contains c | none => false) &&
    (match l.getLast? with | some c => TUPLE_CHARS.contains c | none => false) &&
    (TUPLE_CHARS.all (fun ch => !(l.tail.dropLast.contains ch)))

/-- `split_tuple`: strip well-formed commas, then split a bracketed group on
commas (stripping whitespace from each piece) or return the whole string as a
single element. -/
def split_tuple (e : String) : List String :=
  let e1 := _strip_properly_formatted_commas e
  let l := e1.data
  if l.length = 0 then []
  else if tupleBracketed l then
    (splitOnSubL [','] l.tail.dropLast).map (fun p => pyStrip (String.mk p))
  else [e1]

/-- The per-element comparison of the `grade_answer` loop body. -/
def elem_correct (so : String → Option Bool) (gt_elem g_elem : String) : Bool :=
  if _is_frac gt_elem && _is_frac g_elem then gt_elem == g_elem
  else if _str_is_int gt_elem != _str_is_int g_elem then false
  else are_equal_under_sympy so gt_elem g_elem

/-- `grade_answer`, with the sympy oracle `so` and the LaTeX-to-text oracle
`lo`.  The two `none` fallthrough branches on the normalized given answer model
code Python can only reach by raising on `len(None)`; both are unreachable
because `_normalize` is total on strings (claim C8), as is the empty `zip`
(the tier-2 equality test already returned `true` when both normal forms are
empty). -/
def grade_answer (so : String → Option Bool) (lo : String → Option String)
    (given_answer : Option String) (ground_truth : String) : Bool :=
  match given_answer with
  | none => false
  | some g =>
    if g = "" then false
    else if normalize_answer (some ground_truth) = normalize_answer (some g) then true
    else
      match _normalize lo (some ground_truth), _normalize lo (some g) with
      | none, _ => false
      | some gtN, gN? =>
        if some gtN = gN? then true
        else
          match gN? with
          | none => false
          | some gN =>
            if gN.length = 0 then false
            else
              let gtE := split_tuple gtN
              let gE := split_tuple gN
              if 1 < gtE.length ∧
                  (gtN.data.head? ≠ gN.data.head? ∨ gtN.data.getLast? ≠ gN.data.getLast?) then
                false
              else if gtE.length ≠ gE.length then false
              else (gtE.zip gE).all (fun p => elem_correct so p.1 p.2)

/-! Shared helper lemmas. -/

/-- More than one `\text{ ` marker makes `_remove_right_units` raise. -/
theorem remove_right_units_none (x : String)
    (h : 2 ≤ occCountL "\\text\x7b ".data x.data) : _remove_right_units x = none := by
  unfold _remove_right_units
  rw [if_neg (by omega), if_neg (by omega)]

/-! Claim theorems. -/

/-- Claim C1, counterexample: at the pair `given = ""`, `ground_truth = ""` the
SyntacticNormalForms agree, yet `grade_answer` returns `false`, because an
empty given answer is rejected before the baseline tier runs. -/
theorem C1_counterexample :
    normalize_answer (some "") = normalize_answer (some "") ∧
      grade_answer (fun _ => none) (fun _ => none) (some "") "" = false :=
  ⟨rfl, by decide⟩

/-- Claim C1, amended: for every present and nonempty given answer, equality of
the SyntacticNormalForms (`normalize_answer`) forces `grade_answer` to return
`true`, for every oracle pair: the later tiers never retract the baseline. -/
theorem C1_amended_baseline_monotonic (so : String → Option Bool)
    (lo : String → Option String) (g t : String) (hg : g ≠ "")
    (h : normalize_answer (some g) = normalize_answer (some t)) :
    grade_answer so lo (some g) t = true := by
  simp only [grade_answer]
  rw [if_neg hg, if_pos h.symm]

/-- Claim C1, witness for the amended theorem at `("1", " 1")`. -/
theorem C1_witness :
    ("1" : String) ≠ "" ∧ normalize_answer (some "1") = normalize_answer (some " 1") ∧
      grade_answer (fun _ => none) (fun _ => none) (some "1") " 1" = true :=
  ⟨by decide, by decide, C1_amended_baseline_monotonic _ _ _ _ (by decide) (by decide)⟩

/-- Claim C2, counterexample: on `"a b\text{ m}\text{ s}"` (two `\text{ `
markers) the code returns the input unchanged — spaces intact, no rewrite
applied — whereas the claim predicts the pipeline with only the units-removal
step skipped, which produces a different string. -/
theorem C2_counterexample :
    normalize_answer (some "a b\\text\x7b m\x7d\\text\x7b s\x7d")
        = some "a b\\text\x7b m\x7d\\text\x7b s\x7d" ∧
      strip_string_spec_skip_units "a b\\text\x7b m\x7d\\text\x7b s\x7d"
        = some "ab\\text\x7bm\x7d\\text\x7bs\x7d" ∧
      ("a b\\text\x7b m\x7d\\text\x7b s\x7d" : String) ≠ "ab\\text\x7bm\x7d\\text\x7bs\x7d" :=
  ⟨by decide, by decide, by decide⟩

/-- Claim C2, amended: when the string reaching the units-removal step contains
`\text{ ` more than once, `_strip_string` raises (the defensive assert fails),
`normalize_answer` catches, and the result is the whitespace-stripped,
`\text{}`-unwrapped input `na_pre s` with no further rewrite applied. -/
theorem C2_amended_multiple_units (s : String)
    (h : 2 ≤ occCountL "\\text\x7b ".data
        (leadingDotFix (applyReplacements (na_pre s))).data) :
    _strip_string (na_pre s) = none ∧ normalize_answer (some s) = some (na_pre s) := by
  have hstrip : _strip_string (na_pre s) = none := by
    have h2 : _remove_right_units (leadingDotFix (applyReplacements (na_pre s))) = none :=
      remove_right_units_none _ h
    by_cases he : na_pre s = ""
    · rw [he] at h
      exact absurd h (by decide)
    · unfold _strip_string
      rw [if_neg he]
      simp only [h2]
  refine ⟨hstrip, ?_⟩
  simp only [normalize_answer]
  rw [hstrip]

/-- Claim C2, witness for the amended theorem at the two-marker input. -/
theorem C2_witness :
    2 ≤ occCountL "\\text\x7b ".data
        (leadingDotFix (applyReplacements (na_pre "a b\\text\x7b m\x7d\\text\x7b s\x7d"))).data ∧
      (_strip_string (na_pre "a b\\text\x7b m\x7d\\text\x7b s\x7d") = none ∧
        normalize_answer (some "a b\\text\x7b m\x7d\\text\x7b s\x7d")
          = some (na_pre "a b\\text\x7b m\x7d\\text\x7b s\x7d")) :=
  ⟨by decide, C2_amended_multiple_units _ (by decide)⟩

/-- Claim C3: when both elements match the unreduced-fraction pattern, the pair
comparison is exact string equality with no symbolic fallback (the result is
independent of the sympy oracle); in particular `grade_answer "2/4" "1/2"` is
`false` and `grade_answer "1/2" "1/2"` is `true` for every oracle pair. -/
theorem C3_unreduced_fraction_strict (so : String → Option Bool) (a b : String)
    (ha : _is_frac a = true) (hb : _is_frac b = true) :
    elem_correct so a b = (a == b) ∧
      grade_answer (fun _ => none) (fun _ => none) (some "2/4") "1/2" = false ∧
      grade_answer (fun _ => none) (fun _ => none) (some "1/2") "1/2" = true := by
  refine ⟨?_, by decide, by decide⟩
  unfold elem_correct
  rw [ha, hb]
  rfl

/-- Claim C3, witness at the pair `("1/2", "1/2")`. -/
theorem C3_witness :
    _is_frac "1/2" = true ∧
      (elem_correct (fun _ => none) "1/2" "1/2" = ("1/2" == "1/2") ∧
        grade_answer (fun _ => none) (fun _ => none) (some "2/4") "1/2" = false ∧
        grade_answer (fun _ => none) (fun _ => none) (some "1/2") "1/2" = true) :=
  ⟨by decide,
    C3_unreduced_fraction_strict (fun _ => none) "1/2" "1/2" (by decide) (by decide)⟩

/-- Claim C5: `are_equal_under_sympy` is a total boolean function that absorbs
failures: for every input pair and oracle, an oracle error (a raised parse or
simplification error) yields `false`, as does the heuristic refusal. -/
theorem C5_sympy_failures_absorbed (so : String → Option Bool) (gt g : String) :
    (so (diff_expr gt g) = none → are_equal_under_sympy so gt g = false) ∧
      (should_allow_eval (diff_expr gt g) = false → are_equal_under_sympy so gt g = false) := by
  constructor
  · intro h
    simp [are_equal_under_sympy, h]
  · intro h
    simp [are_equal_under_sympy, h]

/-- Claim C5, witness at an always-raising oracle and inputs `("x", "y")`. -/
theorem C5_witness :
    ((fun _ => (none : Option Bool)) (diff_expr "x" "y") = none) ∧
      are_equal_under_sympy (fun _ => none) "x" "y" = false :=
  ⟨rfl, (C5_sympy_failures_absorbed (fun _ => none) "x" "y").1 rfl⟩

/-- Claim C6: the guard refuses — and `are_equal_under_sympy` returns `false`
without consulting the symbolic oracle — whenever the difference expression has
more than two distinct letters after dropping `sqrt`/`frac` occurrences, or
contains `^{` or `^(`, or matches `\^[0-9]+\^` or `\^[0-9][0-9]+`. -/
theorem C6_heuristic_guard (so : String → Option Bool) (gt g : String)
    (h : 2 < count_unknown_letters_in_expr (diff_expr gt g) ∨
        pyContains (diff_expr gt g) "^\x7b" = true ∨
        pyContains (diff_expr gt g) "^(" = true ∨
        hasPowTowerGo (diff_expr gt g).data = true ∨
        hasBigPowGo (diff_expr gt g).data = true) :
    should_allow_eval (diff_expr gt g) = false ∧
      are_equal_under_sympy so gt g = false := by
  have hs : should_allow_eval (diff_expr gt g) = false := by
    unfold should_allow_eval
    rcases h with h | h | h | h | h <;> simp [h]
  exact ⟨hs, by simp [are_equal_under_sympy, hs]⟩

/-- Claim C6, witness: four distinct letters refuse evaluation. -/
theorem C6_witness :
    2 < count_unknown_letters_in_expr (diff_expr "a+b+c" "d") ∧
      (should_allow_eval (diff_expr "a+b+c" "d") = false ∧
        are_equal_under_sympy (fun _ => none) "a+b+c" "d" = false) :=
  ⟨by decide, C6_heuristic_guard (fun _ => none) "a+b+c" "d" (Or.inl (by decide))⟩

/-- Claim C9: `normalize_answer` is total on strings, and in the exceptional
case — `_strip_string` raising, as on inputs ending in `\sqrt` or `\frac` — it
returns the input after only whitespace stripping and `\text{}` unwrapping
(`na_pre`), with no further rewrite applied. -/
theorem C9_normalize_answer_total (s : String) :
    (normalize_answer (some s)).isSome = true ∧
      (_strip_string (na_pre s) = none → normalize_answer (some s) = some (na_pre s)) := by
  constructor
  · simp only [normalize_answer]
    cases h : _strip_string (na_pre s) <;> simp [h]
  · intro h
    simp only [normalize_answer]
    rw [h]

/-- Claim C9, witness at the raising input `"\sqrt"`. -/
theorem C9_witness :
    _strip_string (na_pre "\\sqrt") = none ∧
      normalize_answer (some "\\sqrt") = some (na_pre "\\sqrt") :=
  ⟨by decide, (C9_normalize_answer_total "\\sqrt").2 (by decide)⟩

/-- Reduction of the comma pass when the lookahead window does not have the
`digit , d d d` shape. -/
theorem commaPassGo_fallback (n : Nat) (x : Char) (xs : List Char)
    (hne : ∀ (c1 a b c : Char) (rest : List Char), xs = c1 :: a :: b :: c :: rest → False) :
    commaPassGo (n + 1) (x :: xs) = x :: commaPassGo n xs := by
  rcases xs with _ | ⟨y, _ | ⟨a1, _ | ⟨b1, _ | ⟨c1, rest⟩⟩⟩⟩
  · rfl
  · rfl
  · rfl
  · rfl
  · exact absurd rfl (hne y a1 b1 c1 rest)

theorem commaPassGo_length_le (n : Nat) (l : List Char) :
    (commaPassGo n l).length ≤ l.length := by
  induction n, l using commaPassGo.induct with
  | case1 t => simp [commaPassGo]
  | case2 l h =>
    cases l with
    | nil => simp [commaPassGo]
    | cons x xs => simp [commaPassGo]
  | case3 n x c1 a b c hcond => simp [commaPassGo, hcond]
  | case4 n x c1 a b c hcond e restTl he ih =>
    simp only [commaPassGo, hcond, he] at ih ⊢
    simp at ih ⊢
    omega
  | case5 n x c1 a b c hcond e restTl he ih =>
    simp only [commaPassGo, hcond]
    simp [he]
    simp at ih
    omega
  | case6 n x c1 a b c rest hcond ih =>
    simp only [commaPassGo]
    rw [if_neg (by simpa using hcond)]
    simp at ih ⊢
    omega
  | case7 n x xs hne ih =>
    rw [commaPassGo_fallback n x xs hne]
    simp only [List.length_cons]
    exact Nat.succ_le_succ ih

theorem commaPassGo_progress (n : Nat) (l : List Char) :
    commaPassGo n l = l ∨ (commaPassGo n l).length < l.length := by
  induction n, l using commaPassGo.induct with
  | case1 t => left; simp [commaPassGo]
  | case2 l h =>
    left
    cases l with
    | nil => simp [commaPassGo]
    | cons x xs => simp [commaPassGo]
  | case3 n x c1 a b c hcond =>
    right
    simp [commaPassGo, hcond]
  | case4 n x c1 a b c hcond e restTl he ih =>
    have hred : commaPassGo (n + 1) (x :: c1 :: a :: b :: c :: e :: restTl)
        = x :: commaPassGo n (c1 :: a :: b :: c :: e :: restTl) := by
      simp only [commaPassGo]
      rw [if_pos hcond, if_pos he]
    rw [hred]
    rcases ih with h | h
    · left; rw [h]
    · right
      simp only [List.length_cons] at h ⊢
      omega
  | case5 n x c1 a b c hcond e restTl he ih =>
    right
    have hle := commaPassGo_length_le n restTl
    simp only [commaPassGo, hcond]
    simp [he]
    omega
  | case6 n x c1 a b c rest hcond ih =>
    simp only [commaPassGo]
    rw [if_neg (by simpa using hcond)]
    rcases ih with h | h
    · left; rw [h]
    · right
      simp at h ⊢
      omega
  | case7 n x xs hne ih =>
    rw [commaPassGo_fallback n x xs hne]
    rcases ih with h | h
    · left; rw [h]
    · right
      simp only [List.length_cons]
      exact Nat.succ_lt_succ h

/-- One comma pass on strings either fixes the string or strictly shortens it. -/
theorem commaPassS_progress (s : String) :
    commaPassS s = s ∨ (commaPassS s).length < s.length := by
  rcases commaPassGo_progress (s.data.length + 1) s.data with h | h
  · left
    unfold commaPassS
    rw [h]
  · right
    exact h

/-- With fuel exceeding the string length, the comma-stripping loop ends at a
fixpoint of the pass. -/
theorem stripCommasLoop_fix : ∀ (n : Nat) (e : String), e.length < n →
    commaPassS (stripCommasLoop n e) = stripCommasLoop n e := by
  intro n
  induction n with
  | zero =>
    intro e h
    omega
  | succ n ih =>
    intro e h
    unfold stripCommasLoop
    by_cases hfix : commaPassS e = e
    · rw [if_pos hfix]
      exact hfix
    · rw [if_neg hfix]
      apply ih
      rcases commaPassS_progress e with h1 | h1
      · exact absurd h1 hfix
      · omega

/-- Claim C10: each substitution pass of the comma-stripping loop either leaves
the string unchanged (ending the loop) or strictly shortens it, so the
`while True` loop terminates on every input: the result of
`_strip_properly_formatted_commas` is a true fixpoint of the pass, and
`split_tuple` is total. -/
theorem C10_comma_loop_terminates (s : String) :
    (commaPassS s ≠ s → (commaPassS s).length < s.length) ∧
      commaPassS (_strip_properly_formatted_commas s) = _strip_properly_formatted_commas s := by
  constructor
  · intro h
    rcases commaPassS_progress s with h1 | h1
    · exact absurd h1 h
    · exact h1
  · unfold _strip_properly_formatted_commas
    exact stripCommasLoop_fix (s.length + 1) s (by omega)

/-- Claim C10, witness at `"1,000,000"`: one pass shortens the string, and the
loop result is a fixpoint. -/
theorem C10_witness :
    commaPassS "1,000,000" ≠ "1,000,000" ∧
      (commaPassS "1,000,000").length < ("1,000,000" : String).length ∧
      commaPassS (_strip_properly_formatted_commas "1,000,000")
        = _strip_properly_formatted_commas "1,000,000" :=
  ⟨by decide, (C10_comma_loop_terminates "1,000,000").1 (by decide),
    (C10_comma_loop_terminates "1,000,000").2⟩

/-- A list whose `head?` is `some a` is a cons. -/
theorem eq_cons_of_headq {l : List Char} {a : Char} (h : l.head? = some a) :
    l = a :: l.tail := by
  cases l <;> simp_all

/-- Characters consumed by a successful exponent parse. -/
theorem parseExp_chars (r : List Char) (ex : Int) (h : parseExp r = some ex) :
    ∀ c ∈ r, c.isDigit = true ∨ c = '-' ∨ c = '+' := by
  intro c hc
  simp only [parseExp] at h
  have tailCase : ∀ (t : List Char), c ∈ t →
      t.takeWhile Char.isDigit ≠ [] → t.dropWhile Char.isDigit = [] →
      c.isDigit = true ∨ c = '-' ∨ c = '+' := by
    intro t hct _ hdw
    left
    have ht : t = t.takeWhile Char.isDigit := by
      conv_lhs => rw [← List.takeWhile_append_dropWhile Char.isDigit t]
      rw [hdw, List.append_nil]
    exact List.mem_takeWhile_imp (ht ▸ hct)
  by_cases hsgn : r.head? = some '-' ∨ r.head? = some '+'
  · rw [if_pos hsgn] at h
    by_cases hv : r.tail.takeWhile Char.isDigit = [] ∨ r.tail.dropWhile Char.isDigit ≠ []
    · rw [if_pos hv] at h
      cases h
    · push_neg at hv
      have hmem : c ∈ r.tail → c.isDigit = true ∨ c = '-' ∨ c = '+' := fun hct =>
        tailCase r.tail hct hv.1 hv.2
      rcases hsgn with h1 | h1
      · rw [eq_cons_of_headq h1] at hc
        rcases List.mem_cons.1 hc with h2 | h2
        · right; left; exact h2
        · exact hmem h2
      · rw [eq_cons_of_headq h1] at hc
        rcases List.mem_cons.1 hc with h2 | h2
        · right; right; exact h2
        · exact hmem h2
  · rw [if_neg hsgn] at h
    by_cases hv : r.takeWhile Char.isDigit = [] ∨ r.dropWhile Char.isDigit ≠ []
    · rw [if_pos hv] at h
      cases h
    · push_neg at hv
      exact tailCase r hc hv.1 hv.2

/-- Characters consumed by a successful mantissa-and-exponent parse. -/
theorem floatBody_chars (sg : Int) (L1 : List Char) (q : DecVal) (h : floatBody sg L1 = some q) :
    ∀ c ∈ L1, c.isDigit = true ∨ c = '-' ∨ c = '+' ∨ c = '.' ∨ c = 'e' ∨ c = 'E' := by
  intro c hc
  simp only [floatBody] at h
  have hdecomp : L1 = L1.takeWhile Char.isDigit ++ L1.dropWhile Char.isDigit :=
    (List.takeWhile_append_dropWhile Char.isDigit L1).symm
  rcases List.mem_append.1 (hdecomp ▸ hc) with hcip | hcl2
  · exact Or.inl (List.mem_takeWhile_imp hcip)
  · -- c sits in the part after the integer digits
    by_cases hdot : (L1.dropWhile Char.isDigit).head? = some '.'
    · rw [if_pos hdot, if_pos hdot, if_pos hdot] at h
      have hl2 : L1.dropWhile Char.isDigit = '.' :: (L1.dropWhile Char.isDigit).tail :=
        eq_cons_of_headq hdot
      rcases List.mem_cons.1 (by rw [hl2] at hcl2; exact hcl2) with hcdot | hctail
      · exact Or.inr (Or.inr (Or.inr (Or.inl hcdot)))
      · have hdec2 : (L1.dropWhile Char.isDigit).tail
            = ((L1.dropWhile Char.isDigit).tail).takeWhile Char.isDigit
              ++ ((L1.dropWhile Char.isDigit).tail).dropWhile Char.isDigit :=
          (List.takeWhile_append_dropWhile Char.isDigit _).symm
        rcases List.mem_append.1 (hdec2 ▸ hctail) with hcf | hcl3
        · exact Or.inl (List.mem_takeWhile_imp hcf)
        · -- c is in the exponent region l3
          by_cases hval : L1.takeWhile Char.isDigit = []
              ∧ ((L1.dropWhile Char.isDigit).tail).takeWhile Char.isDigit = []
          · rw [if_pos hval] at h
            cases h
          · rw [if_neg hval] at h
            split at h
            · rename_i heq
              rw [heq] at hcl3
              cases hcl3
            · rename_i e r heq
              rw [heq] at hcl3
              by_cases he : e = 'e' ∨ e = 'E'
              · rw [if_pos he] at h
                rcases List.mem_cons.1 hcl3 with hce | hcr
                · rcases he with he | he
                  · exact Or.inr (Or.inr (Or.inr (Or.inr (Or.inl (hce.trans he)))))
                  · exact Or.inr (Or.inr (Or.inr (Or.inr (Or.inr (hce.trans he)))))
                · cases hex : parseExp r with
                  | none => rw [hex] at h; cases h
                  | some ex =>
                    rcases parseExp_chars r ex hex c hcr with h1 | h1 | h1
                    · exact Or.inl h1
                    · exact Or.inr (Or.inl h1)
                    · exact Or.inr (Or.inr (Or.inl h1))
              · rw [if_neg he] at h
                cases h
    · rw [if_neg hdot, if_neg hdot] at h
      by_cases hval : L1.takeWhile Char.isDigit = [] ∧ ([] : List Char) = []
      · rw [if_pos hval] at h
        cases h
      · rw [if_neg hval] at h
        split at h
        · rename_i heq
          rw [heq] at hcl2
          cases hcl2
        · rename_i e r heq
          rw [heq] at hcl2
          by_cases he : e = 'e' ∨ e = 'E'
          · rw [if_pos he] at h
            rcases List.mem_cons.1 hcl2 with hce | hcr
            · rcases he with he | he
              · exact Or.inr (Or.inr (Or.inr (Or.inr (Or.inl (hce.trans he)))))
              · exact Or.inr (Or.inr (Or.inr (Or.inr (Or.inr (hce.trans he)))))
            · cases hex : parseExp r with
              | none => rw [hex] at h; cases h
              | some ex =>
                rcases parseExp_chars r ex hex c hcr with h1 | h1 | h1
                · exact Or.inl h1
                · exact Or.inr (Or.inl h1)
                · exact Or.inr (Or.inr (Or.inl h1))
          · rw [if_neg he] at h
            cases h

/-- A successful Python float parse consumes no comma. -/
theorem pyFloatParse_no_comma (s : String) (q : DecVal) (h : pyFloatParse s = some q) :
    ¬ (',' ∈ s.data) := by
  intro hc
  simp only [pyFloatParse] at h
  by_cases hsgn : s.data.head? = some '-' ∨ s.data.head? = some '+'
  · rw [if_pos hsgn] at h
    have hchars := floatBody_chars _ _ _ h
    have hcons : ∃ c0, s.data = c0 :: s.data.tail ∧ (c0 = '-' ∨ c0 = '+') := by
      rcases hsgn with h1 | h1
      · exact ⟨'-', eq_cons_of_headq h1, Or.inl rfl⟩
      · exact ⟨'+', eq_cons_of_headq h1, Or.inr rfl⟩
    obtain ⟨c0, hcons, hc0⟩ := hcons
    rw [hcons] at hc
    rcases List.mem_cons.1 hc with h2 | h2
    · rcases hc0 with h3 | h3 <;> rw [h3] at h2 <;> exact absurd h2 (by decide)
    · rcases hchars ',' h2 with h3 | h3 | h3 | h3 | h3 | h3 <;> exact absurd h3 (by decide)
  · rw [if_neg hsgn] at h
    have hchars := floatBody_chars _ _ _ h
    rcases hchars ',' hc with h3 | h3 | h3 | h3 | h3 | h3 <;> exact absurd h3 (by decide)

/-- A digit is not a comma. -/
theorem digit_beq_comma {c : Char} (h : c.isDigit = true) : (c == ',') = false := by
  rcases Bool.eq_false_or_eq_true (c == ',') with h1 | h1
  · rw [beq_iff_eq.1 h1] at h
    exact absurd h (by decide)
  · exact h1

/-- Single-character replacement by nothing is `filter`. -/
theorem replaceAllGo_single_filter (c : Char) :
    ∀ (n : Nat) (l : List Char), l.length ≤ n →
      replaceAllGo [c] [] n l = l.filter (fun x => !(x == c)) := by
  intro n
  induction n with
  | zero =>
    intro l h
    cases l with
    | nil => simp [replaceAllGo]
    | cons x xs => simp at h
  | succ n ih =>
    intro l h
    cases l with
    | nil => simp [replaceAllGo]
    | cons x xs =>
      have hxs : xs.length ≤ n := by
        simp only [List.length_cons] at h
        omega
      by_cases hx : x = c
      · subst hx
        have hpre : ([x] : List Char).isPrefixOf (x :: xs) = true := by
          simp [List.isPrefixOf]
        simp only [replaceAllGo, hpre, if_true, List.length_cons, List.length_nil,
          List.drop_succ_cons, List.drop_zero, List.nil_append]
        rw [ih xs hxs]
        simp [List.filter_cons]
      · have hpre : ([c] : List Char).isPrefixOf (x :: xs) = false := by
          simp [List.isPrefixOf]
          exact fun he => hx he.symm
        simp only [replaceAllGo, hpre, Bool.false_eq_true, if_false]
        rw [ih xs hxs]
        simp [List.filter_cons, beq_eq_false_iff_ne.2 (fun he => hx he)]

/-- The non-comma characters are untouched by one comma pass. -/
theorem commaPassGo_filter (n : Nat) (l : List Char) :
    (commaPassGo n l).filter (fun x => !(x == ',')) = l.filter (fun x => !(x == ',')) := by
  induction n, l using commaPassGo.induct with
  | case1 t => simp [commaPassGo]
  | case2 l h =>
    cases l with
    | nil => simp [commaPassGo]
    | cons x xs => simp [commaPassGo]
  | case3 n x c1 a b c hcond =>
    obtain ⟨⟨⟨⟨hc1, hx⟩, ha⟩, hb⟩, hcc⟩ :
        (((c1 = ',' ∧ x.isDigit = true) ∧ a.isDigit = true) ∧ b.isDigit = true)
          ∧ c.isDigit = true := by
      simpa [Bool.and_eq_true, beq_iff_eq] using hcond
    subst hc1
    simp only [commaPassGo, hcond, if_true]
    simp [List.filter_cons, digit_beq_comma hx, digit_beq_comma ha,
      digit_beq_comma hb, digit_beq_comma hcc]
  | case4 n x c1 a b c hcond e restTl he ih =>
    have hred : commaPassGo (n + 1) (x :: c1 :: a :: b :: c :: e :: restTl)
        = x :: commaPassGo n (c1 :: a :: b :: c :: e :: restTl) := by
      simp only [commaPassGo]
      rw [if_pos hcond, if_pos he]
    rw [hred]
    simp only [List.filter_cons, ih]
  | case5 n x c1 a b c hcond e restTl he ih =>
    obtain ⟨⟨⟨⟨hc1, hx⟩, ha⟩, hb⟩, hcc⟩ :
        (((c1 = ',' ∧ x.isDigit = true) ∧ a.isDigit = true) ∧ b.isDigit = true)
          ∧ c.isDigit = true := by
      simpa [Bool.and_eq_true, beq_iff_eq] using hcond
    subst hc1
    have hred : commaPassGo (n + 1) (x :: ',' :: a :: b :: c :: e :: restTl)
        = x :: a :: b :: c :: e :: commaPassGo n restTl := by
      simp only [commaPassGo]
      rw [if_pos hcond, if_neg he]
    rw [hred]
    simp [List.filter_cons, ih]
  | case6 n x c1 a b c rest hcond ih =>
    have hred : commaPassGo (n + 1) (x :: c1 :: a :: b :: c :: rest)
        = x :: commaPassGo n (c1 :: a :: b :: c :: rest) := by
      simp only [commaPassGo]
      rw [if_neg (by simpa using hcond)]
    rw [hred]
    simp only [List.filter_cons, ih]
  | case7 n x xs hne ih =>
    rw [commaPassGo_fallback n x xs hne]
    simp only [List.filter_cons, ih]

/-- The non-comma characters are untouched by the comma-stripping loop. -/
theorem stripCommasLoop_filter : ∀ (n : Nat) (e : String),
    (stripCommasLoop n e).data.filter (fun x => !(x == ','))
      = e.data.filter (fun x => !(x == ',')) := by
  intro n
  induction n with
  | zero => intro e; rfl
  | succ n ih =>
    intro e
    unfold stripCommasLoop
    by_cases hfix : commaPassS e = e
    · rw [if_pos hfix]
    · rw [if_neg hfix, ih (commaPassS e)]
      exact commaPassGo_filter _ _

/-- `s.replace(',', '')` is `filter`. -/
theorem pyReplace_comma (s : String) :
    (pyReplace s "," "").data = s.data.filter (fun x => !(x == ',')) := by
  have h1 : ("," : String).data = [','] := rfl
  have h2 : ("" : String).data = ([] : List Char) := rfl
  unfold pyReplace replaceAllL
  rw [h1, h2, if_neg (by decide)]
  exact replaceAllGo_single_filter ',' _ _ (by omega)

/-- A comma-free list is fixed by comma removal. -/
theorem filter_comma_eq_self {l : List Char} (h : ¬ ',' ∈ l) :
    l.filter (fun x => !(x == ',')) = l := by
  apply List.filter_eq_self.2
  intro a ha
  simp only [Bool.not_eq_true']
  exact beq_eq_false_iff_ne.2 (fun he => h (he ▸ ha))

/-- When `_str_is_int` accepts, `_str_to_int` cannot raise: the all-comma
removal then coincides with the well-formed-comma stripping, whose float parse
already succeeded. -/
theorem str_is_int_isSome (e : String) (h : _str_is_int e = true) :
    (_str_to_int e).isSome = true := by
  unfold _str_is_int at h
  cases hp : pyFloatParse (_strip_properly_formatted_commas e) with
  | none =>
    rw [hp] at h
    simp at h
  | some q =>
    have hnc : ¬ (',' ∈ (_strip_properly_formatted_commas e).data) :=
      pyFloatParse_no_comma _ _ hp
    have h1 : (pyReplace e "," "").data = (_strip_properly_formatted_commas e).data := by
      rw [pyReplace_comma]
      calc e.data.filter (fun x => !(x == ','))
          = (_strip_properly_formatted_commas e).data.filter (fun x => !(x == ',')) := by
            unfold _strip_properly_formatted_commas
            rw [stripCommasLoop_filter]
        _ = (_strip_properly_formatted_commas e).data := filter_comma_eq_self hnc
    have hseq : pyReplace e "," "" = _strip_properly_formatted_commas e := String.ext h1
    unfold _str_to_int
    rw [hseq, hp]
    rfl

/-- The final integer-coercion step of `_normalize` cannot raise. -/
theorem normalize_final_total (x : String) : ∃ r, normalizeFinal x = some r := by
  unfold normalizeFinal
  by_cases h : _str_is_int x = true
  · rw [if_pos h]
    obtain ⟨v, hv⟩ := Option.isSome_iff_exists.1 (str_is_int_isSome x h)
    exact ⟨toString v, by rw [hv]; rfl⟩
  · exact ⟨x, by rw [if_neg h]⟩

/-- Claim C8: `_normalize` is total on strings — it returns `some` string for
every string input and every LaTeX oracle; its only uncatchable step, the
guarded `_str_to_int` call, cannot raise.  Consequently the `grade_answer`
branch returning `false` for an absent normalized ground truth is unreachable
when the ground truth is a string. -/
theorem C8_extended_normalizer_total (lo : String → Option String) (s : String) :
    ∃ r, _normalize lo (some s) = some r :=
  normalize_final_total _

/-- Tail of the `grade_answer` decision after both extended normal forms are
known: an element-count mismatch forces `false` on every path. -/
theorem grade_tail_count_mismatch (so : String → Option Bool) (nt gN : String)
    (h2 : (split_tuple nt).length ≠ (split_tuple gN).length) :
    (if gN.length = 0 then false
     else if 1 < (split_tuple nt).length ∧
         (nt.data.head? ≠ gN.data.head? ∨ nt.data.getLast? ≠ gN.data.getLast?) then false
     else if (split_tuple nt).length ≠ (split_tuple gN).length then false
     else ((split_tuple nt).zip (split_tuple gN)).all fun p => elem_correct so p.1 p.2)
      = false := by
  by_cases hlen : gN.length = 0
  · rw [if_pos hlen]
  · rw [if_neg hlen]
    by_cases hb : 1 < (split_tuple nt).length ∧
        (nt.data.head? ≠ gN.data.head? ∨ nt.data.getLast? ≠ gN.data.getLast?)
    · rw [if_pos hb]
    · rw [if_neg hb, if_pos h2]

/-- As `grade_tail_count_mismatch`, from the tier-2 comparison on. -/
theorem grade_tier2_count_mismatch (so : String → Option Bool) (nt ng : String)
    (h2 : (split_tuple nt).length ≠ (split_tuple ng).length) :
    (if some nt = some ng then true
     else match (some ng : Option String) with
       | none => false
       | some gN =>
         if gN.length = 0 then false
         else if 1 < (split_tuple nt).length ∧
             (nt.data.head? ≠ gN.data.head? ∨ nt.data.getLast? ≠ gN.data.getLast?) then false
         else if (split_tuple nt).length ≠ (split_tuple gN).length then false
         else ((split_tuple nt).zip (split_tuple gN)).all fun p => elem_correct so p.1 p.2)
      = false := by
  have hne : (some nt : Option String) ≠ some ng := by
    intro hh
    exact h2 (by rw [Option.some_inj.1 hh])
  rw [if_neg hne]
  exact grade_tail_count_mismatch so nt ng h2

/-- Claim C4, amended: provided the tier-1 baseline fails (the
SyntacticNormalForms differ), a ground truth whose ExtendedNormalForm splits
into `k` elements grades every given answer whose ExtendedNormalForm splits
into a different number of elements as `false`. -/
theorem C4_amended_count_mismatch (so : String → Option Bool)
    (lo : String → Option String) (g t nt ng : String)
    (h1 : normalize_answer (some g) ≠ normalize_answer (some t))
    (ht : _normalize lo (some t) = some nt)
    (hg : _normalize lo (some g) = some ng)
    (h2 : (split_tuple nt).length ≠ (split_tuple ng).length) :
    grade_answer so lo (some g) t = false := by
  simp only [grade_answer]
  by_cases hge : g = ""
  · rw [if_pos hge]
  · rw [if_neg hge, if_neg (fun hh => h1 hh.symm), ht, hg]
    exact grade_tier2_count_mismatch so nt ng h2

/-- Claim C4, witness for the amended theorem at `given = "1"`,
`ground_truth = "(1,2)"`. -/
theorem C4_witness :
    normalize_answer (some "1") ≠ normalize_answer (some "(1,2)") ∧
      _normalize (fun _ => none) (some "(1,2)") = some "(1,2)" ∧
      _normalize (fun _ => none) (some "1") = some "1" ∧
      (split_tuple "(1,2)").length ≠ (split_tuple "1").length ∧
      grade_answer (fun _ => none) (fun _ => none) (some "1") "(1,2)" = false :=
  ⟨by decide, by decide, by decide, by decide,
    C4_amended_count_mismatch (fun _ => none) (fun _ => none) "1" "(1,2)" "(1,2)" "1"
      (by decide) (by decide) (by decide) (by decide)⟩

/-- Claim C4, counterexample: `grade_answer "(1or2)" "(1 or 2)"` is `true` via
the tier-1 baseline although the two ExtendedNormalForms decompose into one and
two elements respectively — the count mismatch does not force `false` when the
baseline already accepted. -/
theorem C4_counterexample :
    grade_answer (fun _ => none) (fun _ => none) (some "(1or2)") "(1 or 2)" = true ∧
      _normalize (fun _ => none) (some "(1 or 2)") = some "(1,2)" ∧
      _normalize (fun _ => none) (some "(1or2)") = some "(1or2)" ∧
      (split_tuple "(1,2)").length = 2 ∧
      (split_tuple "(1or2)").length = 1 :=
  ⟨by decide, by decide, by decide, by decide, by decide⟩

/-- Claim C7, counterexample: extended normalization is not idempotent.  On
`"ccmm"` the unit rewrite for `cm` removes the middle `cm` and leaves a fresh
`cm`, so a second pass differs: `_normalize "ccmm" = "cm"` but
`_normalize "cm" = ""`. -/
theorem C7_counterexample :
    _normalize (fun _ => none) (_normalize (fun _ => none) (some "ccmm"))
      ≠ _normalize (fun _ => none) (some "ccmm") := by decide

/-- Characters that occur in none of the rewrite patterns of `_normalize`:
no digit, sign, dot, bracket, backslash, space, and no letter of the unit or
scale-word vocabulary. -/
def safeChar (c : Char) : Bool :=
  c == 'j' || c == 'p' || c == 'q' || c == 'v' || c == 'x' || c == 'z'

/-- Enumerate a safe character. -/
theorem safe_spec {c : Char} (h : safeChar c = true) :
    c = 'j' ∨ c = 'p' ∨ c = 'q' ∨ c = 'v' ∨ c = 'x' ∨ c = 'z' := by
  have h2 : ((((c = 'j' ∨ c = 'p') ∨ c = 'q') ∨ c = 'v') ∨ c = 'x') ∨ c = 'z' := by
    simpa [safeChar] using h
  tauto

/-- Safe characters are not digits. -/
theorem safe_not_digit {c : Char} (h : safeChar c = true) : c.isDigit = false := by
  rcases safe_spec h with h | h | h | h | h | h <;> subst h <;> decide

/-- A safe character differs from every unsafe one. -/
theorem safe_ne {c d : Char} (h : safeChar c = true) (hd : safeChar d = false) : c ≠ d := by
  intro he
  subst he
  rw [h] at hd
  cases hd

/-- Safe characters are already lower-case. -/
theorem safe_toLower {c : Char} (h : safeChar c = true) : c.toLower = c := by
  rcases safe_spec h with h | h | h | h | h | h <;> subst h <;> decide

/-- Head of an all-safe list. -/
theorem all_safe_head {x : Char} {xs : List Char} (h : (x :: xs).all safeChar = true) :
    safeChar x = true := by
  simp only [List.all_cons, Bool.and_eq_true] at h
  exact h.1

/-- Tail of an all-safe list. -/
theorem all_safe_tail {x : Char} {xs : List Char} (h : (x :: xs).all safeChar = true) :
    xs.all safeChar = true := by
  simp only [List.all_cons, Bool.and_eq_true] at h
  exact h.2

/-- A pattern starting with an unsafe character never prefixes an all-safe list. -/
theorem prefix_safe_false {p : Char} {ps l : List Char} (hp : safeChar p = false)
    (hl : l.all safeChar = true) : (p :: ps).isPrefixOf l = false := by
  cases l with
  | nil => rfl
  | cons x xs =>
    have hx := all_safe_head hl
    simp only [List.isPrefixOf]
    rw [beq_eq_false_iff_ne.2 (fun he => safe_ne hx hp he.symm)]
    rfl

/-- `str.replace` with an unsafe-headed pattern fixes all-safe strings. -/
theorem replaceAllGo_safe_id {p : Char} (ps rep : List Char) (hp : safeChar p = false) :
    ∀ (n : Nat) (l : List Char), l.all safeChar = true →
      replaceAllGo (p :: ps) rep n l = l := by
  intro n
  induction n with
  | zero =>
    intro l _
    cases l <;> simp [replaceAllGo]
  | succ n ih =>
    intro l hl
    cases l with
    | nil => simp [replaceAllGo]
    | cons x xs =>
      simp only [replaceAllGo, prefix_safe_false hp hl, Bool.false_eq_true, if_false]
      rw [ih xs (all_safe_tail hl)]

/-- `pyReplace` with an unsafe-headed pattern fixes all-safe strings. -/
theorem pyReplace_safe_id (s p rep : String) (c : Char) (cs : List Char)
    (hpd : p.data = c :: cs) (hc : safeChar c = false)
    (hs : s.data.all safeChar = true) : pyReplace s p rep = s := by
  unfold pyReplace replaceAllL
  rw [hpd, if_neg (by simp), replaceAllGo_safe_id cs rep.data hc _ s.data hs]

/-- The unit scanner with an unsafe-headed unit word fixes all-safe strings. -/
theorem unitSubGo_safe_id {c : Char} (cs : List Char) (hc : safeChar c = false) :
    ∀ (n : Nat) (l : List Char), l.all safeChar = true →
      unitSubGo (c :: cs) n l = l := by
  intro n
  induction n with
  | zero =>
    intro l _
    cases l <;> simp [unitSubGo]
  | succ n ih =>
    intro l hl
    cases l with
    | nil => simp [unitSubGo]
    | cons x xs =>
      simp only [unitSubGo, prefix_safe_false hc hl, Bool.false_eq_true, if_false]
      rw [ih xs (all_safe_tail hl)]

/-- `unitSub` for an unsafe-headed unit word fixes all-safe strings. -/
theorem unitSub_safe_id (u s : String) (hne : ¬ u.data.isEmpty = true)
    (hh : safeChar (u.data.headD 'A') = false)
    (hs : s.data.all safeChar = true) : unitSub u s = s := by
  unfold unitSub
  cases hu : u.data with
  | nil => rw [hu] at hne; exact absurd rfl hne
  | cons c cs =>
    rw [hu] at hh
    simp only [List.headD_cons] at hh
    rw [unitSubGo_safe_id cs hh (s.data.length + 1) s.data hs]

/-- The whole unit-stripping fold fixes all-safe strings. -/
theorem foldl_unitSub_safe_id (us : List String)
    (hus : us.all (fun u => !u.data.isEmpty && !safeChar (u.data.headD 'A')) = true) :
    ∀ s : String, s.data.all safeChar = true →
      us.foldl (fun acc u => unitSub u acc) s = s := by
  induction us with
  | nil => intro s _; rfl
  | cons u us ih =>
    intro s hs
    simp only [List.all_cons, Bool.and_eq_true, Bool.not_eq_true'] at hus
    obtain ⟨⟨h1, h2⟩, h3⟩ := hus
    simp only [List.foldl_cons]
    rw [unitSub_safe_id u s (by rw [h1]; exact Bool.false_ne_true) h2 hs]
    apply ih _ s hs
    simp only [List.all_eq_true] at h3 ⊢
    intro x hx
    have := h3 x hx
    simpa [Bool.and_eq_true, Bool.not_eq_true'] using this

/-- The degree-marker scanner fixes all-safe strings. -/
theorem circSubGo_safe_id :
    ∀ (n : Nat) (l : List Char), l.all safeChar = true → circSubGo n l = l := by
  intro n
  induction n with
  | zero =>
    intro l _
    cases l <;> simp [circSubGo]
  | succ n ih =>
    intro l hl
    cases l with
    | nil => simp [circSubGo]
    | cons x xs =>
      have hx : (x == '^') = false :=
        beq_eq_false_iff_ne.2 (safe_ne (all_safe_head hl) (by decide))
      simp only [circSubGo, hx, Bool.false_eq_true, if_false]
      rw [ih xs (all_safe_tail hl)]

/-- The minus-space scanner fixes all-safe strings. -/
theorem minusSubGo_safe_id :
    ∀ (n : Nat) (l : List Char), l.all safeChar = true → minusSubGo n l = l := by
  intro n
  induction n with
  | zero =>
    intro l _
    cases l <;> simp [minusSubGo]
  | succ n ih =>
    intro l hl
    cases l with
    | nil => simp [minusSubGo]
    | cons x xs =>
      have hx : (x == '-') = false :=
        beq_eq_false_iff_ne.2 (safe_ne (all_safe_head hl) (by decide))
      simp only [minusSubGo, hx, Bool.false_eq_true, if_false]
      rw [ih xs (all_safe_tail hl)]

/-- The `,\!` scanner fixes all-safe strings. -/
theorem commaEmphGo_safe_id :
    ∀ (n : Nat) (l : List Char), l.all safeChar = true → commaEmphGo n l = l := by
  intro n
  induction n with
  | zero =>
    intro l _
    cases l <;> simp [commaEmphGo]
  | succ n ih =>
    intro l hl
    cases l with
    | nil => simp [commaEmphGo]
    | cons x xs =>
      have hx : (x == ',') = false :=
        beq_eq_false_iff_ne.2 (safe_ne (all_safe_head hl) (by decide))
      simp only [commaEmphGo, hx, Bool.false_and, Bool.false_eq_true, if_false]
      rw [ih xs (all_safe_tail hl)]

/-- The implicit-mixed-number scanner fixes all-safe strings. -/
theorem injectGo_safe_id :
    ∀ (n : Nat) (l : List Char), l.all safeChar = true → injectGo n l = l := by
  intro n
  induction n with
  | zero =>
    intro l _
    cases l <;> simp [injectGo]
  | succ n ih =>
    intro l hl
    cases l with
    | nil => simp [injectGo]
    | cons x xs =>
      have hx : x.isDigit = false := safe_not_digit (all_safe_head hl)
      simp only [injectGo, hx, Bool.false_eq_true, if_false]
      rw [ih xs (all_safe_tail hl)]

/-- The comma pass fixes all-safe strings (no digit can start a match). -/
theorem commaPassGo_safe_id :
    ∀ (n : Nat) (l : List Char), l.all safeChar = true → commaPassGo n l = l := by
  intro n l
  induction n, l using commaPassGo.induct with
  | case1 t => intro _; simp [commaPassGo]
  | case2 l h =>
    intro _
    cases l with
    | nil => simp [commaPassGo]
    | cons x xs => simp [commaPassGo]
  | case3 n x c1 a b c hcond =>
    intro hl
    obtain ⟨⟨⟨⟨_, hx⟩, _⟩, _⟩, _⟩ :
        (((c1 = ',' ∧ x.isDigit = true) ∧ a.isDigit = true) ∧ b.isDigit = true)
          ∧ c.isDigit = true := by
      simpa [Bool.and_eq_true, beq_iff_eq] using hcond
    rw [safe_not_digit (all_safe_head hl)] at hx
    cases hx
  | case4 n x c1 a b c hcond e restTl he ih =>
    intro hl
    obtain ⟨⟨⟨⟨_, hx⟩, _⟩, _⟩, _⟩ :
        (((c1 = ',' ∧ x.isDigit = true) ∧ a.isDigit = true) ∧ b.isDigit = true)
          ∧ c.isDigit = true := by
      simpa [Bool.and_eq_true, beq_iff_eq] using hcond
    rw [safe_not_digit (all_safe_head hl)] at hx
    cases hx
  | case5 n x c1 a b c hcond e restTl he ih =>
    intro hl
    obtain ⟨⟨⟨⟨_, hx⟩, _⟩, _⟩, _⟩ :
        (((c1 = ',' ∧ x.isDigit = true) ∧ a.isDigit = true) ∧ b.isDigit = true)
          ∧ c.isDigit = true := by
      simpa [Bool.and_eq_true, beq_iff_eq] using hcond
    rw [safe_not_digit (all_safe_head hl)] at hx
    cases hx
  | case6 n x c1 a b c rest hcond ih =>
    intro hl
    have hred : commaPassGo (n + 1) (x :: c1 :: a :: b :: c :: rest)
        = x :: commaPassGo n (c1 :: a :: b :: c :: rest) := by
      simp only [commaPassGo]
      rw [if_neg (by simpa using hcond)]
    rw [hred, ih (all_safe_tail hl)]
  | case7 n x xs hne ih =>
    intro hl
    rw [commaPassGo_fallback n x xs hne, ih (all_safe_tail hl)]

/-- No `\text{` wrapper on an all-safe string. -/
theorem textUnwrap_safe_none (s : String) (hs : s.data.all safeChar = true) :
    textUnwrapCore s = none := by
  have hpre : ("\\text\x7b".data).isPrefixOf s.data = false := by
    rw [show ("\\text\x7b" : String).data
        = '\\' :: ('t' :: 'e' :: 'x' :: 't' :: '\x7b' :: []) from rfl]
    exact prefix_safe_false (by decide) hs
  unfold textUnwrapCore
  rw [if_neg (by simp [hpre])]

/-- Substring search for an unsafe-headed pattern fails on all-safe strings. -/
theorem containsSub_safe_false {p : Char} (ps : List Char) (hp : safeChar p = false) :
    ∀ l : List Char, l.all safeChar = true → containsSubL (p :: ps) l = false := by
  intro l
  induction l with
  | nil => intro _; rfl
  | cons x xs ih =>
    intro hl
    simp only [containsSubL, prefix_safe_false hp hl, Bool.false_or]
    exact ih (all_safe_tail hl)

/-- Head of an all-safe list is never a given unsafe character. -/
theorem headq_safe_ne {l : List Char} (hl : l.all safeChar = true) {c : Char}
    (hc : safeChar c = false) : ¬ l.head? = some c := by
  cases l with
  | nil => simp
  | cons x xs =>
    simp only [List.head?_cons, Option.some.injEq]
    exact fun h => safe_ne (all_safe_head hl) hc h

/-- The float parser rejects all-safe strings. -/
theorem pyFloatParse_safe_none (s : String) (hs : s.data.all safeChar = true) :
    pyFloatParse s = none := by
  cases hd : s.data with
  | nil =>
    have hse : s = "" := String.ext (by rw [hd])
    rw [hse]
    rfl
  | cons c cs =>
    rw [hd] at hs
    have hc := all_safe_head hs
    simp only [pyFloatParse]
    rw [hd]
    have h1 : ¬((c :: cs).head? = some '-' ∨ (c :: cs).head? = some '+') := by
      rintro (h | h)
      · exact headq_safe_ne hs (by decide) h
      · exact headq_safe_ne hs (by decide) h
    rw [if_neg h1]
    simp only [floatBody]
    have htake : (c :: cs).takeWhile Char.isDigit = [] := by
      simp [List.takeWhile_cons, safe_not_digit hc]
    have hdrop : (c :: cs).dropWhile Char.isDigit = c :: cs := by
      simp [List.dropWhile_cons, safe_not_digit hc]
    rw [htake, hdrop]
    have hdot : ¬((c :: cs).head? = some '.') := headq_safe_ne hs (by decide)
    rw [if_neg hdot, if_neg hdot, if_pos ⟨rfl, rfl⟩]

/-- Lower-casing fixes all-safe lists. -/
theorem map_toLower_safe_id (l : List Char) (hl : l.all safeChar = true) :
    l.map Char.toLower = l := by
  induction l with
  | nil => rfl
  | cons x xs ih =>
    simp only [List.map_cons, safe_toLower (all_safe_head hl), ih (all_safe_tail hl)]

/-- `_str_is_int` rejects all-safe strings. -/
theorem str_is_int_safe_false (s : String) (hs : s.data.all safeChar = true) :
    _str_is_int s = false := by
  have hpass : commaPassS s = s := by
    unfold commaPassS
    rw [commaPassGo_safe_id _ _ hs]
  have hfix : _strip_properly_formatted_commas s = s := by
    unfold _strip_properly_formatted_commas stripCommasLoop
    rw [if_pos hpass]
  unfold _str_is_int
  rw [hfix, pyFloatParse_safe_none s hs]

/-- Stage lemma: the symbol-and-scale-word replacements fix all-safe strings. -/
theorem normSymbols_safe_id (s : String) (hs : s.data.all safeChar = true) :
    normSymbols s = s := by
  unfold normSymbols
  rw [pyReplace_safe_id s _ _ '\\' _ rfl (by decide) hs,
    pyReplace_safe_id s _ _ '\\' _ rfl (by decide) hs,
    pyReplace_safe_id s _ _ '$' _ rfl (by decide) hs,
    pyReplace_safe_id s _ _ '%' _ rfl (by decide) hs,
    pyReplace_safe_id s _ _ ' ' _ rfl (by decide) hs,
    pyReplace_safe_id s _ _ ' ' _ rfl (by decide) hs,
    pyReplace_safe_id s _ _ 'm' _ rfl (by decide) hs,
    pyReplace_safe_id s _ _ 'b' _ rfl (by decide) hs,
    pyReplace_safe_id s _ _ 't' _ rfl (by decide) hs]

/-- Stage lemma: unit stripping fixes all-safe strings. -/
theorem normUnits_safe_id (s : String) (hs : s.data.all safeChar = true) :
    normUnits s = s :=
  foldl_unitSub_safe_id unitWords (by decide) s hs

/-- Stage lemma: degree-marker removal fixes all-safe strings. -/
theorem normCirc_safe_id (s : String) (hs : s.data.all safeChar = true) :
    normCirc s = s := by
  unfold normCirc
  rw [circSubGo_safe_id _ _ hs]

/-- Stage lemma: brace stripping fixes all-safe strings. -/
theorem normBraceStrip_safe_id (s : String) (hs : s.data.all safeChar = true) :
    normBraceStrip s = s := by
  unfold normBraceStrip
  rw [if_neg]
  rintro ⟨hh, _⟩
  exact headq_safe_ne hs (by decide) hh

/-- Stage lemma: thousands-emphasis removal fixes all-safe strings. -/
theorem normCommaEmph_safe_id (s : String) (hs : s.data.all safeChar = true) :
    normCommaEmph s = s := by
  unfold normCommaEmph
  rw [commaEmphGo_safe_id _ _ hs]

/-- Stage lemma: the float step fixes all-safe strings. -/
theorem normFloatInt_safe_id (s : String) (hs : s.data.all safeChar = true) :
    normFloatInt s = s := by
  unfold normFloatInt
  rw [pyFloatParse_safe_none s hs]

/-- Stage lemma: the LaTeX attempt fixes all-safe strings. -/
theorem normLatex_safe_id (lo : String → Option String) (s : String)
    (hs : s.data.all safeChar = true) : normLatex lo s = s := by
  have h16 : pyContains s "\\" = false := by
    unfold pyContains
    rw [show ("\\" : String).data = '\\' :: [] from rfl]
    exact containsSub_safe_false [] (by decide) s.data hs
  unfold normLatex
  rw [h16]
  rfl

/-- Stage lemma: minus-space collapsing fixes all-safe strings. -/
theorem normMinus_safe_id (s : String) (hs : s.data.all safeChar = true) :
    normMinus s = s := by
  unfold normMinus
  rw [minusSubGo_safe_id _ _ hs]

/-- Stage lemma: the mixed-number injection fixes all-safe strings. -/
theorem inject_safe_id (s : String) (hs : s.data.all safeChar = true) :
    _inject_implicit_mixed_number s = s := by
  unfold _inject_implicit_mixed_number
  rw [injectGo_safe_id _ _ hs]

/-- Stage lemma: space and brace removal fixes all-safe strings. -/
theorem normSpaceBrace_safe_id (s : String) (hs : s.data.all safeChar = true) :
    normSpaceBrace s = s := by
  unfold normSpaceBrace
  rw [pyReplace_safe_id s _ _ ' ' _ rfl (by decide) hs,
    pyReplace_safe_id s _ _ '\x7b' _ rfl (by decide) hs,
    pyReplace_safe_id s _ _ '\x7d' _ rfl (by decide) hs]

/-- Stage lemma: case folding fixes all-safe strings. -/
theorem normLower_safe_id (s : String) (hs : s.data.all safeChar = true) :
    normLower s = s := by
  unfold normLower
  rw [map_toLower_safe_id _ hs]

/-- Stage lemma: the final integer coercion keeps an all-safe string. -/
theorem normalizeFinal_safe_id (s : String) (hs : s.data.all safeChar = true) :
    normalizeFinal s = some s := by
  unfold normalizeFinal
  rw [str_is_int_safe_false s hs]
  rfl

/-- `_normalize` fixes every all-safe string: no rewrite pattern can fire. -/
theorem normalize_safe_id (lo : String → Option String) (s : String)
    (hs : s.data.all safeChar = true) : _normalize lo (some s) = some s := by
  simp only [_normalize, textUnwrap_safe_none s hs]
  rw [normSymbols_safe_id s hs, normUnits_safe_id s hs, normCirc_safe_id s hs,
    normBraceStrip_safe_id s hs, normCommaEmph_safe_id s hs, normFloatInt_safe_id s hs,
    normLatex_safe_id lo s hs, normMinus_safe_id s hs, inject_safe_id s hs,
    normSpaceBrace_safe_id s hs, normLower_safe_id s hs, normalizeFinal_safe_id s hs]
/-- Claim C7, amended: `_normalize` is not idempotent in general (see the
counterexample), but on every string over an alphabet disjoint from all rewrite
patterns — here `j, p, q, v, x, z` — it is the identity, hence idempotent. -/
theorem C7_amended_idempotent (lo : String → Option String) (s : String)
    (hs : s.data.all safeChar = true) :
    _normalize lo (some s) = some s ∧
      _normalize lo (_normalize lo (some s)) = _normalize lo (some s) := by
  have h := normalize_safe_id lo s hs
  exact ⟨h, by rw [h]; exact h⟩

/-- Claim C7, witness for the amended theorem at `"xz"`. -/
theorem C7_witness :
    ("xz" : String).data.all safeChar = true ∧
      (_normalize (fun _ => none) (some "xz") = some "xz" ∧
        _normalize (fun _ => none) (_normalize (fun _ => none) (some "xz"))
          = _normalize (fun _ => none) (some "xz")) :=
  ⟨by decide, C7_amended_idempotent (fun _ => none) "xz" (by decide)⟩
